import Mathlib

/-!
Verification development for the data-trust pipeline of this repository
(`standards/cross_validator.py` and `standards/verification_middleware.py`).

Python records are shallowly embedded as JSON-like values (`JVal`) and
dicts as ordered association lists with unique-key semantics (`Dict`).
Python's substring test `p in s` is embedded as `hasSub` over char lists,
`str.startswith` as `pfx`, and `urllib.parse.urlparse(url).netloc` by
`netlocL`/`netlocE` (the scheme is stripped when the text before the
first colon consists of scheme characters, then the host is the run
after a leading `//` up to the first of the three delimiter characters;
`urlsplit` raises `ValueError("Invalid IPv6 URL")` on a
mismatched-bracket authority, which `netlocE` models as an `Except`
error, `netlocL` being the host of the non-raising path). The
validator functions that call `urlparse` therefore come in two layers:
the `...E` functions embed the code including its raising path, and the
plain functions are their value on the non-raising domain.

Modelling conventions, stated once: where the Python code applies a string
operation to a field value, a non-string value is read as the empty string
via `getStr` (on such records CPython would raise a `TypeError` and produce
no verdict at all, so they are outside every verdict-level property);
`json.dumps(..., ensure_ascii=False)` is embedded by `jdumpL` with the
default `(", ", ": ")` separators, escaping the quote and backslash
characters; `str.lower` is embedded ASCII-wise by `Char.toLower`, which
agrees with Python on all domain patterns checked here.
-/

/-- A JSON-like Python value: strings, integers, booleans, `None`, lists
and dicts. -/
inductive JVal where
  | str (s : String)
  | num (n : Int)
  | bool (b : Bool)
  | null
  | arr (l : List JVal)
  | obj (l : List (String × JVal))

/-- A Python dict embedded as an ordered association list. -/
abbrev Dict := List (String × JVal)

/-- `d.get(key)`: first binding of `key`, if any. -/
def dget : Dict → String → Option JVal
  | [], _ => none
  | (k, v) :: t, key => if k = key then some v else dget t key

/-- `d.get(key, default)`. -/
def dgetD (d : Dict) (key : String) (dft : JVal) : JVal :=
  (dget d key).getD dft

/-- `key in d`. -/
def hasKey (d : Dict) (key : String) : Bool :=
  (dget d key).isSome

/-- `d[key] = v`: replace the value of the first binding of `key` in
place when the key exists, otherwise append the new binding at the end
(Python dict order). -/
def dset : Dict → String → JVal → Dict
  | [], key, v => [(key, v)]
  | (k1, v1) :: t, key, v =>
    if k1 = key then (key, v) :: t else (k1, v1) :: dset t key v

/-- Read a string value; non-strings are read as `""` (see the header
comment on the `TypeError` convention). -/
def getStr : JVal → String
  | .str s => s
  | _ => ""

/-- Python truthiness of a value. -/
def truthyV : JVal → Bool
  | .str s => !(s = "")
  | .num n => !(n = 0)
  | .bool b => b
  | .null => false
  | .arr l => !l.isEmpty
  | .obj l => !l.isEmpty

/-- Python truthiness of `d.get(key)` (missing keys give `None`). -/
def truthyO : Option JVal → Bool
  | none => false
  | some v => truthyV v

/-- `w` is a leading run of `s` (Python `s.startswith(w)` on char lists). -/
def pfx : List Char → List Char → Bool
  | [], _ => true
  | _ :: _, [] => false
  | c :: w, d :: s => c = d && pfx w s

/-- Python's substring test `w in s` on char lists. -/
def hasSub (w : List Char) : List Char → Bool
  | [] => pfx w []
  | c :: s => pfx w (c :: s) || hasSub w s

/-- `w in s` for strings, matching Python's `w in s`. -/
def strIn (w s : String) : Bool := hasSub w.data s.data

/-- ASCII lowercasing of a char list (`str.lower`, which agrees with
Python on every domain pattern used by the validator). -/
def lowerL (l : List Char) : List Char := l.map Char.toLower

/-- ASCII `str.lower` on strings. -/
def lowerS (s : String) : String := String.mk (lowerL s.data)

/-- Characters allowed in a URL scheme by `urllib.parse`. -/
def isSchemeChar (c : Char) : Bool :=
  c.isAlpha || c.isDigit || c = '+' || c = '-' || c = '.'

/-- Strip a leading `scheme:` if the text before the first colon is a
non-empty run of scheme characters (`urllib.parse.urlsplit`). -/
def stripScheme (u : List Char) : List Char :=
  match u.findIdx? (fun c => c = ':') with
  | some i => if 0 < i && (u.take i).all isSchemeChar then u.drop (i + 1) else u
  | none => u

/-- The host computation of `urlparse(url).netloc` on char lists: after
the scheme, a leading `//` opens the network location, which runs to the
first `/`, `?` or `#`; otherwise the netloc is empty. This is the value
of the non-raising path; `urlsplit` additionally raises on a
mismatched-bracket authority, which `netlocE` below models. -/
def netlocL (u : List Char) : List Char :=
  let r := stripScheme u
  if pfx "//".data r then
    (r.drop 2).takeWhile (fun c => !(c = '/' || c = '?' || c = '#'))
  else []

/-- `urlparse(url).netloc` on strings. -/
def netlocS (s : String) : String := String.mk (netlocL s.data)

/-! ## Cross validator (`standards/cross_validator.py`) -/

/-- Tier-A domains of `check_source_credibility`. -/
def tierA : List String := ["tmall.com", "jd.com", "gov.cn"]

/-- Tier-B domains of `check_source_credibility`. -/
def tierB : List String := ["36kr.com", "huxiu.com", "sina.com.cn", "qq.com"]

/-- Tier-C domains of `check_source_credibility`. -/
def tierC : List String := ["xiaohongshu.com", "douyin.com", "zhihu.com"]

/-- `CrossValidator.check_source_credibility`: lowercase the host of the
URL and test the tier lists for a contained domain, in the order A, B, C,
falling back to `D`. -/
def check_source_credibility (url : String) : String :=
  let domain := lowerL (netlocL url.data)
  if tierA.any (fun d => hasSub d.data domain) then "A"
  else if tierB.any (fun d => hasSub d.data domain) then "B"
  else if tierC.any (fun d => hasSub d.data domain) then "C"
  else "D"

/-- The host of one source dict: `urlparse(source.get('url', '')).netloc`. -/
def sourceDomain (s : Dict) : String :=
  netlocS (getStr (dgetD s "url" (.str "")))

/-- The hosts of a source list, in order. -/
def domainsOf (sources : List Dict) : List String :=
  sources.map sourceDomain

/-- Result of `check_source_independence`. -/
structure IndepResult where
  is_independent : Bool
  unique_domains : List String
  total_sources : Nat
deriving DecidableEq

/-- `CrossValidator.check_source_independence`: collect each source's
host and require at least two distinct ones. -/
def check_source_independence (sources : List Dict) : IndepResult :=
  let domains := domainsOf sources
  { is_independent := decide (2 ≤ domains.dedup.length)
    unique_domains := domains.dedup
    total_sources := sources.length }

/-- The brand `forbidden_patterns` of `validation_rules`. -/
def brandForbidden : List String := ["文创品牌", "文旅综合体", "非遗活化"]

/-- Result of `validate_brand_cross`. -/
structure BrandResult where
  brand : String
  source_count : Bool
  independence : Bool
  domain_analysis : IndepResult
  has_credible_source : Bool
  credibility_scores : List String
  not_template : Bool
  is_valid : Bool
deriving DecidableEq

/-- `CrossValidator.validate_brand_cross`: the four checks and their
conjunction (`all(result['checks'].values())`). -/
def validate_brand_cross (brand_name : String) (sources : List Dict) : BrandResult :=
  let source_count := decide (2 ≤ sources.length)
  let independence := check_source_independence sources
  let credibility_scores :=
    sources.map (fun s => check_source_credibility (getStr (dgetD s "url" (.str ""))))
  let has_credible_source := credibility_scores.any (fun s => s = "A" || s = "B")
  let not_template := !(brandForbidden.any (fun p => strIn p brand_name))
  { brand := brand_name
    source_count := source_count
    independence := independence.is_independent
    domain_analysis := independence
    has_credible_source := has_credible_source
    credibility_scores := credibility_scores
    not_template := not_template
    is_valid := source_count && independence.is_independent
      && has_credible_source && not_template }

/-- Result of `validate_policy_cross`. -/
structure PolicyResult where
  title : String
  has_doc_number : Bool
  has_source_url : Bool
  is_gov_source : Bool
  not_template : Bool
  is_valid : Bool
deriving DecidableEq

/-- The policy title template phrases (only the first two are tested,
conjunctively). -/
def policyTemplatePhrases : List String := ["关于促进", "关于加快", "关于推动", "关于支持"]

/-- `CrossValidator.validate_policy_cross`: document number, source URL,
the `'gov.cn' in source_url.lower()` test guarded by truthiness of the
URL value, the narrow title test, and `is_valid = has_doc_number or
is_gov_source`. -/
def validate_policy_cross (policy_data : Dict) : PolicyResult :=
  let titleV := getStr (dgetD policy_data "title" (.str ""))
  let docV := dgetD policy_data "doc_number" (.str "")
  let srcV := dgetD policy_data "source_url" (.str "")
  let has_doc_number := truthyV docV
  let has_source_url := truthyV srcV
  let is_gov_source :=
    if truthyV srcV then strIn "gov.cn" (lowerS (getStr srcV)) else false
  let not_template :=
    !((policyTemplatePhrases.take 2).all (fun p => strIn p titleV))
  { title := String.mk (titleV.data.take 40)
    has_doc_number := has_doc_number
    has_source_url := has_source_url
    is_gov_source := is_gov_source
    not_template := not_template
    is_valid := has_doc_number || is_gov_source }

/-! ## The raising path of `urlparse`

CPython's `urlsplit` raises `ValueError("Invalid IPv6 URL")` when the
authority component contains a `[` without a `]` or vice versa, so every
validator call that parses such a URL propagates an exception instead of
returning. `netlocL` above is the host computed on the non-raising path;
the functions below embed the code including the raise, as
`Except`-valued computations whose error carries the `ValueError`
message. -/

/-- The mismatched-bracket test of `urlsplit`: the netloc contains one
bracket kind without the other. (When the URL has no `//` authority the
netloc is empty and the test is vacuously false, exactly as in CPython,
where the check only runs after `//` is split off.) -/
def invalidIpv6 (u : List Char) : Bool :=
  let n := netlocL u
  (n.contains '[' && !n.contains ']') || (n.contains ']' && !n.contains '[')

/-- `urlparse(url).netloc` including the raising path: a mismatched
bracket in the authority raises `ValueError("Invalid IPv6 URL")`,
otherwise the host of the non-raising path is returned. -/
def netlocE (u : List Char) : Except String (List Char) :=
  if invalidIpv6 u then .error "Invalid IPv6 URL" else .ok (netlocL u)

/-- `CrossValidator.check_source_credibility` including the raising
path of its `urlparse` call; the non-raising case computes exactly
`check_source_credibility`. -/
def check_source_credibilityE (url : String) : Except String String :=
  match netlocE url.data with
  | .error e => .error e
  | .ok n =>
    let domain := lowerL n
    .ok (if tierA.any (fun d => hasSub d.data domain) then "A"
         else if tierB.any (fun d => hasSub d.data domain) then "B"
         else if tierC.any (fun d => hasSub d.data domain) then "C"
         else "D")

/-- The domain-collection loop of `check_source_independence` including
the raising path: the first source whose URL has a mismatched-bracket
authority propagates the `ValueError`. -/
def domainsOfE : List Dict → Except String (List String)
  | [] => .ok []
  | s :: t =>
    match netlocE (getStr (dgetD s "url" (.str ""))).data with
    | .error e => .error e
    | .ok n =>
      match domainsOfE t with
      | .error e => .error e
      | .ok ds => .ok (String.mk n :: ds)

/-- `CrossValidator.check_source_independence` including the raising
path of its per-source `urlparse` calls. -/
def check_source_independenceE (sources : List Dict) : Except String IndepResult :=
  match domainsOfE sources with
  | .error e => .error e
  | .ok domains =>
    .ok { is_independent := decide (2 ≤ domains.dedup.length)
          unique_domains := domains.dedup
          total_sources := sources.length }

/-- The credibility-score loop of `validate_brand_cross` including the
raising path. -/
def credScoresE : List Dict → Except String (List String)
  | [] => .ok []
  | s :: t =>
    match check_source_credibilityE (getStr (dgetD s "url" (.str ""))) with
    | .error e => .error e
    | .ok sc =>
      match credScoresE t with
      | .error e => .error e
      | .ok scs => .ok (sc :: scs)

/-- `CrossValidator.validate_brand_cross` including the raising path:
the independence check runs first and raises on the first invalid source
URL, then the credibility loop (which raises on the same URLs); the
non-raising case builds exactly `validate_brand_cross`. -/
def validate_brand_crossE (brand_name : String) (sources : List Dict) :
    Except String BrandResult :=
  match check_source_independenceE sources with
  | .error e => .error e
  | .ok independence =>
    match credScoresE sources with
    | .error e => .error e
    | .ok credibility_scores =>
      let source_count := decide (2 ≤ sources.length)
      let has_credible_source := credibility_scores.any (fun s => s = "A" || s = "B")
      let not_template := !(brandForbidden.any (fun p => strIn p brand_name))
      .ok { brand := brand_name
            source_count := source_count
            independence := independence.is_independent
            domain_analysis := independence
            has_credible_source := has_credible_source
            credibility_scores := credibility_scores
            not_template := not_template
            is_valid := source_count && independence.is_independent
              && has_credible_source && not_template }

/-- No source URL of the list has a mismatched-bracket authority, i.e.
none of the validator's `urlparse` calls raises on it. -/
def allValidUrls (sources : List Dict) : Bool :=
  sources.all (fun s => !invalidIpv6 (getStr (dgetD s "url" (.str ""))).data)

/-! ## JSON serialization (`json.dumps(..., ensure_ascii=False)`) -/

/-- Escape the quote and backslash characters of a char list, as
`json.dumps` does for the string values appearing here. -/
def escChars : List Char → List Char
  | [] => []
  | c :: t => (if c = '"' || c = '\\' then ['\\', c] else [c]) ++ escChars t

/-- Serialize one JSON string: quote and escape. -/
def jstrL (s : String) : List Char := '"' :: escChars s.data ++ ['"']

/-- Join serialized elements with the default `", "` separator. -/
def joinL : List (List Char) → List Char
  | [] => []
  | [x] => x
  | x :: y :: t => x ++ ',' :: ' ' :: joinL (y :: t)

mutual
/-- `json.dumps(v, ensure_ascii=False)` as a char list. -/
def jdumpL : JVal → List Char
  | .str s => jstrL s
  | .num n => (toString n).data
  | .bool b => if b then "true".data else "false".data
  | .null => "null".data
  | .arr l => '[' :: joinL (jarrL l) ++ [']']
  | .obj l => '{' :: joinL (jobjL l) ++ ['}']
/-- Serialized elements of a JSON array. -/
def jarrL : List JVal → List (List Char)
  | [] => []
  | v :: t => jdumpL v :: jarrL t
/-- Serialized `"key": value` items of a JSON object. -/
def jobjL : List (String × JVal) → List (List Char)
  | [] => []
  | (k, v) :: t => (jstrL k ++ ':' :: ' ' :: jdumpL v) :: jobjL t
end

/-- One serialized object item, `"key": value`. -/
def jitemL (p : String × JVal) : List Char :=
  jstrL p.1 ++ ':' :: ' ' :: jdumpL p.2

/-! ## Verification middleware (`standards/verification_middleware.py`) -/

/-- An `errors`/`warnings` pair produced by one check. -/
structure CheckOut where
  errors : List String
  warnings : List String
deriving DecidableEq

/-- The template patterns of `_check_hallucination`. -/
def templatePhrases : List String :=
  ["文创品牌", "文旅综合体", "非遗活化", "数字文创", "文创街区",
   "{city}", "{region}", "某", "示例", "测试"]

/-- The vague hedging words of `_check_hallucination`. -/
def vagueWords : List String := ["可能", "大概", "也许", "估计", "应该", "据说"]

/-- `data.get('name', data.get('title', ''))`, read as a string. -/
def nameChars (d : Dict) : List Char :=
  (getStr (dgetD d "name" (dgetD d "title" (.str "")))).data

/-- The serialized record, `json.dumps(data, ensure_ascii=False)`. -/
def dataStr (d : Dict) : List Char := jdumpL (.obj d)

/-- Template-name errors: one error per matching template phrase. -/
def halluErrs (name : List Char) : List String :=
  (templatePhrases.filter (fun p => hasSub p.data name)).map
    (fun p => "疑似AI生成/模板数据: 包含\x27" ++ p ++ "\x27")

/-- Vague-language warnings: one per hedging word contained in the
serialized record. -/
def vagueWarns (ds : List Char) : List String :=
  (vagueWords.filter (fun w => hasSub w.data ds)).map
    (fun w => "包含模糊表述: \x27" ++ w ++ "\x27")

/-- Unsourced-KPI warnings: for each string KPI value with a 万 or 亿
magnitude marker, warn when the serialized record mentions neither 来源
nor `source`. -/
def kpiWarns (d : Dict) (ds : List Char) : List String :=
  match dget d "kpi" with
  | some (.obj kpi) =>
    (kpi.filter (fun p =>
        (match p.2 with
         | .str v => hasSub "万".data v.data || hasSub "亿".data v.data
         | _ => false)
        && !(hasSub "来源".data ds || hasSub "source".data ds))).map
      (fun p => "KPI数据\x27" ++ p.1 ++ "\x27缺少来源标注")
  | _ => []

/-- `VerificationMiddleware._check_hallucination`. -/
def check_hallucination (d : Dict) : CheckOut :=
  { errors := halluErrs (nameChars d)
    warnings := vagueWarns (dataStr d) ++ kpiWarns d (dataStr d) }

/-- `VerificationMiddleware._check_required_fields`. -/
def check_required_fields (d : Dict) : CheckOut :=
  let brandErrs :=
    if hasKey d "category" then
      (["name", "region", "category"].filter (fun f => !truthyO (dget d f))).map
        (fun f => "缺少必填字段: " ++ f)
    else []
  let policyErrs :=
    if hasKey d "title" && strIn "政策" (getStr (dgetD d "category" (.str ""))) then
      if !truthyO (dget d "doc_number") && !truthyO (dget d "source_url") then
        ["政策文件必须提供文号或来源链接"]
      else []
    else []
  { errors := brandErrs ++ policyErrs, warnings := [] }

/-- `VerificationMiddleware._check_sources`. -/
def check_sources (d : Dict) : CheckOut :=
  let has_source :=
    truthyO (dget d "source_url") || truthyO (dget d "sources")
      || (match dget d "type" with | some (.str t) => t = "real_brand" | _ => false)
      || truthyO (dget d "verified")
  let warnings := if !has_source then ["缺少数据来源信息"] else []
  let srcUrl := (getStr (dgetD d "source_url" (.str ""))).data
  let errors :=
    if truthyV (dgetD d "source_url" (.str "")) then
      if !(pfx "http://".data srcUrl || pfx "https://".data srcUrl) then
        ["来源URL格式错误"]
      else []
    else []
  { errors := errors, warnings := warnings }

/-- A middleware verdict, the dict returned by `verify_data`. -/
structure Verdict where
  passed : Bool
  level : String
  errors : List String
  warnings : List String
deriving DecidableEq

/-- `VerificationMiddleware.verify_data`: run the hallucination check,
the required-field check (only when a `name` or `title` key is present)
and the source check, merge, and derive the level. -/
def verify_data (d : Dict) : Verdict :=
  let h := check_hallucination d
  let f := if hasKey d "name" || hasKey d "title" then check_required_fields d
           else { errors := [], warnings := [] }
  let s := check_sources d
  let errors := h.errors ++ f.errors ++ s.errors
  let warnings := h.warnings ++ f.warnings ++ s.warnings
  let level := if !errors.isEmpty then "REJECTED"
               else if !warnings.isEmpty then "CONDITIONAL"
               else "A"
  { passed := errors.isEmpty, level := level, errors := errors, warnings := warnings }

/-- The payload of the `ValueError` raised by the strict gate: the full
error list and the record preview `json.dumps(result)[:200]` embedded in
the message. -/
structure VerificationError where
  errors : List String
  preview : String
deriving DecidableEq

/-- The `_verification` metadata attached on the accepted path. -/
def verifiedMeta (level ts : String) : JVal :=
  .obj [("status", .str "VERIFIED"), ("level", .str level), ("timestamp", .str ts)]

/-- The `_verification` metadata attached on the permissive rejected path. -/
def pendingMeta (errors : List String) (ts : String) : JVal :=
  .obj [("status", .str "PENDING"), ("errors", .arr (errors.map .str)),
        ("timestamp", .str ts)]

/-- The wrapper body of `VerificationMiddleware.validate_required`,
applied to the value the wrapped operation produced: dict results are
verified and either annotated or, in strict mode, turned into a raised
`ValueError`; non-dict results pass through. The nondeterministic
`datetime.now().isoformat()` timestamp is the parameter `ts`. -/
def validate_required (strict : Bool) (ts : String) (result : JVal) :
    Except VerificationError JVal :=
  match result with
  | .obj d =>
    let v := verify_data d
    if !v.passed then
      if strict then
        .error { errors := v.errors, preview := String.mk ((jdumpL (.obj d)).take 200) }
      else
        .ok (.obj (dset d "_verification" (pendingMeta v.errors ts)))
    else
      .ok (.obj (dset d "_verification" (verifiedMeta v.level ts)))
  | r => .ok r

/-- `Except.ok`-ness of a wrapped call (`true` when no error propagates). -/
def isOkE : Except VerificationError JVal → Bool
  | .ok _ => true
  | .error _ => false

/-- A character that can appear in a `datetime.now().isoformat()`
timestamp: digits and the separators of the ISO format. -/
def isoChar (c : Char) : Bool :=
  c.isDigit || c = '-' || c = ':' || c = 'T' || c = '.'

/-- The string consists only of ISO-timestamp characters. -/
def isoOnly (ts : String) : Bool := ts.data.all isoChar

/-- Join char-list segments with a single quote character between
consecutive segments (the shape of a serialized JSON object item, whose
variable parts are always wrapped in quotes). -/
def qjoin : List (List Char) → List Char
  | [] => []
  | [s] => s
  | s :: t => s ++ '"' :: qjoin t

/-! ## General lemmas about the embedded string and dict operations -/

theorem pfx_iff (w : List Char) : ∀ s, pfx w s = true ↔ ∃ t, s = w ++ t := by
  induction w with
  | nil => intro s; simp [pfx]
  | cons c w ih =>
    intro s
    cases s with
    | nil => simp [pfx]
    | cons d s =>
      simp only [pfx, Bool.and_eq_true, decide_eq_true_eq, ih, List.cons_append]
      constructor
      · rintro ⟨rfl, t, rfl⟩
        exact ⟨t, rfl⟩
      · rintro ⟨t, h⟩
        injection h with h1 h2
        exact ⟨h1.symm, t, h2⟩

theorem hasSub_iff (w : List Char) : ∀ s, hasSub w s = true ↔ ∃ a b, s = a ++ w ++ b := by
  intro s
  induction s with
  | nil =>
    simp only [hasSub, pfx_iff]
    constructor
    · rintro ⟨t, h⟩
      exact ⟨[], t, by simpa using h⟩
    · rintro ⟨a, b, h⟩
      rcases List.append_eq_nil.mp h.symm with ⟨h1, h2⟩
      rcases List.append_eq_nil.mp h1 with ⟨h3, h4⟩
      exact ⟨[], by simp [h4]⟩
  | cons c s ih =>
    simp only [hasSub, Bool.or_eq_true, pfx_iff, ih]
    constructor
    · rintro (⟨t, h⟩ | ⟨a, b, rfl⟩)
      · exact ⟨[], t, by simpa using h⟩
      · exact ⟨c :: a, b, rfl⟩
    · rintro ⟨a, b, h⟩
      cases a with
      | nil => exact Or.inl ⟨b, by simpa using h⟩
      | cons x a' =>
        rw [List.cons_append, List.cons_append] at h
        injection h with h1 h2
        exact Or.inr ⟨a', b, h2⟩

theorem hasSub_of_mid (w a m b : List Char) (h : hasSub w m = true) :
    hasSub w (a ++ m ++ b) = true := by
  rcases (hasSub_iff w m).mp h with ⟨x, y, rfl⟩
  exact (hasSub_iff w _).mpr ⟨a ++ x, y ++ b, by simp⟩

theorem hasSub_split (w a b : List Char) (c : Char) (hc : c ∉ w)
    (h : hasSub w (a ++ c :: b) = true) :
    hasSub w a = true ∨ hasSub w b = true := by
  rcases (hasSub_iff w _).mp h with ⟨s, t, hst⟩
  rw [List.append_assoc] at hst
  rcases List.append_eq_append_iff.mp hst with ⟨a', ha1, ha2⟩ | ⟨s', hs1, hs2⟩
  · -- s = a ++ a' and c :: b = a' ++ (w ++ t)
    cases a' with
    | nil =>
      simp only [List.nil_append] at ha2
      cases w with
      | nil => exact Or.inl ((hasSub_iff [] a).mpr ⟨[], a, by simp⟩)
      | cons y w' =>
        rw [List.cons_append] at ha2
        injection ha2 with h1 h2
        refine absurd ?_ hc
        rw [h1]
        exact List.mem_cons_self y w'
    | cons x a'' =>
      rw [List.cons_append] at ha2
      injection ha2 with h1 h2
      exact Or.inr ((hasSub_iff w b).mpr ⟨a'', t, by simpa using h2⟩)
  · -- a = s ++ s' and w ++ t = s' ++ (c :: b)
    rcases List.append_eq_append_iff.mp hs2 with ⟨a2, hb1, hb2⟩ | ⟨w2, hw1, hw2⟩
    · -- s' = w ++ a2 and t = a2 ++ c :: b
      refine Or.inl ((hasSub_iff w a).mpr ⟨s, a2, ?_⟩)
      rw [hs1, hb1, List.append_assoc]
    · -- w = s' ++ w2 and c :: b = w2 ++ t
      cases w2 with
      | nil =>
        refine Or.inl ((hasSub_iff w a).mpr ⟨s, [], ?_⟩)
        rw [hs1, hw1]
        simp
      | cons y w2' =>
        rw [List.cons_append] at hw2
        injection hw2 with h1 h2
        refine absurd ?_ hc
        rw [hw1, h1]
        simp

theorem hasSub_mem (w s : List Char) (h : hasSub w s = true) : ∀ x ∈ w, x ∈ s := by
  rcases (hasSub_iff w s).mp h with ⟨a, b, rfl⟩
  intro x hx
  simp [hx]

theorem hasSub_nil_of_ne (w : List Char) (hw : w ≠ []) : hasSub w [] = false := by
  cases w with
  | nil => exact absurd rfl hw
  | cons c w' => rfl

theorem dget_append_ne (d : Dict) (K k : String) (v : JVal) (h : k ≠ K) :
    dget (d ++ [(K, v)]) k = dget d k := by
  induction d with
  | nil => simp [dget, Ne.symm h]
  | cons p t ih =>
    rcases p with ⟨k1, v1⟩
    simp only [List.cons_append, dget]
    split
    · rfl
    · exact ih

theorem hasKey_append_ne (d : Dict) (K k : String) (v : JVal) (h : k ≠ K) :
    hasKey (d ++ [(K, v)]) k = hasKey d k := by
  simp [hasKey, dget_append_ne d K k v h]

theorem dgetD_append_ne (d : Dict) (K k : String) (v dft : JVal) (h : k ≠ K) :
    dgetD (d ++ [(K, v)]) k dft = dgetD d k dft := by
  simp [dgetD, dget_append_ne d K k v h]

theorem dset_not_hasKey (d : Dict) (K : String) (v : JVal) (h : hasKey d K = false) :
    dset d K v = d ++ [(K, v)] := by
  induction d with
  | nil => rfl
  | cons p t ih =>
    rcases p with ⟨k1, v1⟩
    simp only [hasKey, dget] at h
    by_cases h1 : k1 = K
    · rw [if_pos h1] at h
      simp at h
    · rw [if_neg h1] at h
      simp only [dset, if_neg h1, List.cons_append, List.cons.injEq, true_and]
      exact ih (by simpa [hasKey] using h)

theorem dget_dset_ne (d : Dict) (K k : String) (v : JVal) (h : k ≠ K) :
    dget (dset d K v) k = dget d k := by
  induction d with
  | nil => simp [dset, dget, Ne.symm h]
  | cons p t ih =>
    rcases p with ⟨k1, v1⟩
    simp only [dset]
    by_cases h1 : k1 = K
    · rw [if_pos h1]
      simp only [dget, if_neg (Ne.symm h)]
      rw [h1, if_neg (Ne.symm h)]
    · rw [if_neg h1]
      simp only [dget]
      split
      · rfl
      · exact ih

theorem dget_dset_self (d : Dict) (K : String) (v : JVal) :
    dget (dset d K v) K = some v := by
  induction d with
  | nil => simp [dset, dget]
  | cons p t ih =>
    rcases p with ⟨k1, v1⟩
    simp only [dset]
    by_cases h1 : k1 = K
    · rw [if_pos h1]
      simp [dget]
    · rw [if_neg h1]
      simp only [dget, if_neg h1]
      exact ih

theorem stripScheme_drop (u : List Char) : ∃ n, stripScheme u = u.drop n := by
  rcases h : u.findIdx? (fun c => c = ':') with _ | i
  · exact ⟨0, by simp [stripScheme, h]⟩
  · have hs : stripScheme u
        = if 0 < i && (u.take i).all isSchemeChar then u.drop (i + 1) else u := by
      unfold stripScheme
      rw [h]
    rw [hs]
    by_cases hc : (0 < i && (u.take i).all isSchemeChar) = true
    · rw [if_pos hc]
      exact ⟨i + 1, rfl⟩
    · rw [if_neg hc]
      exact ⟨0, (List.drop_zero u).symm⟩

theorem netloc_infix (u : List Char) : ∃ a b, u = a ++ netlocL u ++ b := by
  unfold netlocL
  rcases stripScheme_drop u with ⟨n, hn⟩
  by_cases hp : pfx "//".data (stripScheme u) = true
  · rw [if_pos hp]
    rcases (pfx_iff _ _).mp hp with ⟨t, ht⟩
    have hd : (stripScheme u).drop 2 = t := by
      rw [ht]
      rfl
    have htw := List.takeWhile_append_dropWhile
      (p := fun c => !(c = '/' || c = '?' || c = '#')) (l := t)
    refine ⟨u.take n ++ ['/', '/'],
      t.dropWhile (fun c => !(c = '/' || c = '?' || c = '#')), ?_⟩
    conv_lhs => rw [← List.take_append_drop n u, ← hn, ht]
    rw [hd, List.append_assoc, List.append_assoc, ← htw]
    simp
  · rw [if_neg hp]
    exact ⟨u, [], by simp⟩

theorem hasSub_lower_netloc (w u : List Char)
    (h : hasSub w (lowerL (netlocL u)) = true) : hasSub w (lowerL u) = true := by
  rcases netloc_infix u with ⟨a, b, hab⟩
  have hsplit : lowerL u = lowerL a ++ lowerL (netlocL u) ++ lowerL b := by
    conv_lhs => rw [hab]
    simp [lowerL]
  rw [hsplit]
  exact hasSub_of_mid _ _ _ _ h

theorem netlocE_ok (u : List Char) (h : invalidIpv6 u = false) :
    netlocE u = .ok (netlocL u) := by
  simp [netlocE, h]

theorem check_source_credibilityE_ok (url : String) (h : invalidIpv6 url.data = false) :
    check_source_credibilityE url = .ok (check_source_credibility url) := by
  unfold check_source_credibilityE
  rw [netlocE_ok url.data h]
  rfl

theorem valid_head_tail (s : Dict) (t : List Dict) (h : allValidUrls (s :: t) = true) :
    invalidIpv6 (getStr (dgetD s "url" (JVal.str ""))).data = false
      ∧ allValidUrls t = true := by
  simp only [allValidUrls, List.all_cons, Bool.and_eq_true, Bool.not_eq_true'] at h
  exact ⟨h.1, h.2⟩

theorem domainsOfE_ok (sources : List Dict) (h : allValidUrls sources = true) :
    domainsOfE sources = .ok (domainsOf sources) := by
  induction sources with
  | nil => rfl
  | cons s t ih =>
    rcases valid_head_tail s t h with ⟨hs, ht⟩
    unfold domainsOfE
    rw [netlocE_ok _ hs, ih ht]
    rfl

theorem check_source_independenceE_ok (sources : List Dict)
    (h : allValidUrls sources = true) :
    check_source_independenceE sources = .ok (check_source_independence sources) := by
  unfold check_source_independenceE
  rw [domainsOfE_ok sources h]
  rfl

theorem credScoresE_ok (sources : List Dict) (h : allValidUrls sources = true) :
    credScoresE sources = .ok (sources.map
      (fun s => check_source_credibility (getStr (dgetD s "url" (JVal.str ""))))) := by
  induction sources with
  | nil => rfl
  | cons s t ih =>
    rcases valid_head_tail s t h with ⟨hs, ht⟩
    unfold credScoresE
    rw [check_source_credibilityE_ok _ hs, ih ht]
    rfl

theorem validate_brand_crossE_ok (brand_name : String) (sources : List Dict)
    (h : allValidUrls sources = true) :
    validate_brand_crossE brand_name sources
      = .ok (validate_brand_cross brand_name sources) := by
  unfold validate_brand_crossE
  rw [check_source_independenceE_ok sources h, credScoresE_ok sources h]
  rfl

theorem escChars_eq_self (l : List Char) (h : ∀ c ∈ l, ¬(c = '"' ∨ c = '\\')) :
    escChars l = l := by
  induction l with
  | nil => rfl
  | cons c t ih =>
    have hc := h c (List.mem_cons_self c t)
    have hcond : (decide (c = '"') || decide (c = '\\')) = false := by
      rcases not_or.mp hc with ⟨h1, h2⟩
      simp [h1, h2]
    simp [escChars, hcond, ih (fun x hx => h x (List.mem_cons_of_mem c hx))]

theorem jobjL_append_single (d : Dict) (p : String × JVal) :
    jobjL (d ++ [p]) = jobjL d ++ [jitemL p] := by
  induction d with
  | nil =>
    rcases p with ⟨k, v⟩
    rfl
  | cons q t ih =>
    rcases q with ⟨k1, v1⟩
    rw [List.cons_append]
    show (jstrL k1 ++ ':' :: ' ' :: jdumpL v1) :: jobjL (t ++ [p])
      = ((jstrL k1 ++ ':' :: ' ' :: jdumpL v1) :: jobjL t) ++ [jitemL p]
    rw [ih]
    rfl

theorem joinL_append_single (xs : List (List Char)) (y : List Char) (h : xs ≠ []) :
    joinL (xs ++ [y]) = joinL xs ++ ',' :: ' ' :: y := by
  induction xs with
  | nil => exact absurd rfl h
  | cons x xs ih =>
    cases xs with
    | nil => rfl
    | cons x2 xs2 =>
      show x ++ ',' :: ' ' :: joinL ((x2 :: xs2) ++ [y])
        = (x ++ ',' :: ' ' :: joinL (x2 :: xs2)) ++ ',' :: ' ' :: y
      rw [ih (by simp), List.append_assoc]
      rfl

theorem hasSub_false_of_witness (w s : List Char) (hx : ∃ c ∈ w, c ∉ s) :
    hasSub w s = false := by
  cases hc : hasSub w s with
  | false => rfl
  | true =>
    exfalso
    rcases hx with ⟨c, hcw, hcs⟩
    exact hcs (hasSub_mem w s hc c hcw)

theorem hasSub_cons_elim (w s : List Char) (c : Char) (hc : c ∉ w) (hw : w ≠ [])
    (h : hasSub w (c :: s) = true) : hasSub w s = true := by
  have h' : hasSub w ([] ++ c :: s) = true := h
  rcases hasSub_split w [] s c hc h' with h1 | h1
  · rw [hasSub_nil_of_ne w hw] at h1
    exact Bool.noConfusion h1
  · exact h1

theorem hasSub_last_elim (w s : List Char) (c : Char) (hc : c ∉ w) (hw : w ≠ [])
    (h : hasSub w (s ++ [c]) = true) : hasSub w s = true := by
  have h' : hasSub w (s ++ c :: []) = true := h
  rcases hasSub_split w s [] c hc h' with h1 | h1
  · exact h1
  · rw [hasSub_nil_of_ne w hw] at h1
    exact Bool.noConfusion h1

theorem notSub_qjoin (w : List Char) (hw : w ≠ []) (hq : '"' ∉ w) :
    ∀ segs : List (List Char), (∀ s ∈ segs, hasSub w s = false) →
      hasSub w (qjoin segs) = false := by
  intro segs
  induction segs with
  | nil => intro _; exact hasSub_nil_of_ne w hw
  | cons s t ih =>
    intro h
    cases t with
    | nil => exact h s (List.mem_cons_self s [])
    | cons s2 t2 =>
      cases hc : hasSub w (qjoin (s :: s2 :: t2)) with
      | false => rfl
      | true =>
        exfalso
        have hc' : hasSub w (s ++ '"' :: qjoin (s2 :: t2)) = true := hc
        rcases hasSub_split w s (qjoin (s2 :: t2)) '"' hq hc' with h1 | h1
        · rw [h s (List.mem_cons_self s _)] at h1
          exact Bool.noConfusion h1
        · rw [ih (fun x hx => h x (List.mem_cons_of_mem s hx))] at h1
          exact Bool.noConfusion h1

theorem metaItem_qjoin (lvl ts : String) :
    jitemL ("_verification", verifiedMeta lvl ts)
      = '"' :: qjoin [escChars "_verification".data, [':', ' ', '{'],
          escChars "status".data, [':', ' '], escChars "VERIFIED".data, [',', ' '],
          escChars "level".data, [':', ' '], escChars lvl.data, [',', ' '],
          escChars "timestamp".data, [':', ' '], escChars ts.data, ['}']] := by
  simp [jitemL, verifiedMeta, jdumpL, jobjL, joinL, jstrL, qjoin, List.append_assoc]

theorem isoChar_not_esc (c : Char) (h : isoChar c = true) : ¬(c = '"' ∨ c = '\\') := by
  rintro (rfl | rfl)
  · exact absurd h (by decide)
  · exact absurd h (by decide)

theorem notSub_iso (w : List Char) (ts : String) (hts : isoOnly ts = true)
    (hx : ∃ c ∈ w, isoChar c = false) : hasSub w (escChars ts.data) = false := by
  have hall : ∀ c ∈ ts.data, isoChar c = true := by
    simpa only [isoOnly, List.all_eq_true] using hts
  rw [escChars_eq_self ts.data (fun c hc => isoChar_not_esc c (hall c hc))]
  apply hasSub_false_of_witness
  rcases hx with ⟨c, hcw, hciso⟩
  refine ⟨c, hcw, fun hmem => ?_⟩
  rw [hall c hmem] at hciso
  exact Bool.noConfusion hciso

theorem notSub_metaItem (lvl ts : String) (w : List Char)
    (hw : w ≠ []) (hq : '"' ∉ w)
    (h1 : hasSub w (escChars "_verification".data) = false)
    (h2 : hasSub w [':', ' ', '{'] = false)
    (h3 : hasSub w (escChars "status".data) = false)
    (h4 : hasSub w [':', ' '] = false)
    (h5 : hasSub w (escChars "VERIFIED".data) = false)
    (h6 : hasSub w [',', ' '] = false)
    (h7 : hasSub w (escChars "level".data) = false)
    (h8 : hasSub w (escChars lvl.data) = false)
    (h9 : hasSub w (escChars "timestamp".data) = false)
    (h10 : hasSub w (escChars ts.data) = false)
    (h11 : hasSub w ['}'] = false) :
    hasSub w (jitemL ("_verification", verifiedMeta lvl ts)) = false := by
  rw [metaItem_qjoin]
  have hsegs : hasSub w (qjoin [escChars "_verification".data, [':', ' ', '{'],
      escChars "status".data, [':', ' '], escChars "VERIFIED".data, [',', ' '],
      escChars "level".data, [':', ' '], escChars lvl.data, [',', ' '],
      escChars "timestamp".data, [':', ' '], escChars ts.data, ['}']]) = false := by
    apply notSub_qjoin w hw hq
    intro s hs
    simp only [List.mem_cons, List.not_mem_nil, or_false] at hs
    rcases hs with rfl | rfl | rfl | rfl | rfl | rfl | rfl | rfl | rfl | rfl | rfl | rfl | rfl | rfl
    exacts [h1, h2, h3, h4, h5, h6, h7, h4, h8, h6, h9, h4, h10, h11]
  cases hc : hasSub w ('"' :: qjoin [escChars "_verification".data, [':', ' ', '{'],
      escChars "status".data, [':', ' '], escChars "VERIFIED".data, [',', ' '],
      escChars "level".data, [':', ' '], escChars lvl.data, [',', ' '],
      escChars "timestamp".data, [':', ' '], escChars ts.data, ['}']]) with
  | false => rfl
  | true =>
    exfalso
    have h0 := hasSub_cons_elim w _ '"' hq hw hc
    rw [hsegs] at h0
    exact Bool.noConfusion h0

theorem verify_level_values (d : Dict) :
    (verify_data d).level = "A" ∨ (verify_data d).level = "CONDITIONAL"
      ∨ (verify_data d).level = "REJECTED" := by
  have h : (verify_data d).level
      = (if !(verify_data d).errors.isEmpty then "REJECTED"
         else if !(verify_data d).warnings.isEmpty then "CONDITIONAL" else "A") := rfl
  rw [h]
  by_cases he : (!(verify_data d).errors.isEmpty) = true
  · simp [he]
  · rw [if_neg he]
    by_cases hw2 : (!(verify_data d).warnings.isEmpty) = true
    · simp [hw2]
    · rw [if_neg hw2]
      simp

theorem hasSub_dataStr_append (d : Dict) (K : String) (v : JVal) (w : List Char)
    (hw : w ≠ []) (hb1 : '{' ∉ w) (hb2 : '}' ∉ w) (hcm : ',' ∉ w) (hsp : ' ' ∉ w)
    (hM : hasSub w (jitemL (K, v)) = false) :
    hasSub w (dataStr (d ++ [(K, v)])) = hasSub w (dataStr d) := by
  cases d with
  | nil =>
    have e1 : dataStr ([] ++ [(K, v)]) = '{' :: (jitemL (K, v) ++ ['}']) := rfl
    have e2 : dataStr ([] : Dict) = ['{', '}'] := rfl
    rw [e1, e2]
    have hfr : hasSub w ['{', '}'] = false := by
      apply hasSub_false_of_witness
      rcases w with _ | ⟨c0, w'⟩
      · exact absurd rfl hw
      · refine ⟨c0, List.mem_cons_self _ _, fun hmem => ?_⟩
        simp only [List.mem_cons, List.not_mem_nil, or_false] at hmem
        rcases hmem with rfl | rfl
        · exact hb1 (List.mem_cons_self _ _)
        · exact hb2 (List.mem_cons_self _ _)
    have hfl : hasSub w ('{' :: (jitemL (K, v) ++ ['}'])) = false := by
      cases hc : hasSub w ('{' :: (jitemL (K, v) ++ ['}'])) with
      | false => rfl
      | true =>
        exfalso
        have h2 := hasSub_cons_elim w _ '{' hb1 hw hc
        have h3 := hasSub_last_elim w _ '}' hb2 hw h2
        rw [hM] at h3
        exact Bool.noConfusion h3
    rw [hfl, hfr]
  | cons p t =>
    have hne : jobjL (p :: t) ≠ [] := by
      rcases p with ⟨k1, v1⟩
      simp [jobjL]
    have h0 : dataStr ((p :: t) ++ [(K, v)])
        = '{' :: (joinL (jobjL ((p :: t) ++ [(K, v)])) ++ ['}']) := rfl
    have hLHS : dataStr ((p :: t) ++ [(K, v)])
        = '{' :: (joinL (jobjL (p :: t)) ++ ',' :: ' ' :: (jitemL (K, v) ++ ['}'])) := by
      rw [h0, jobjL_append_single, joinL_append_single _ _ hne]
      simp [List.append_assoc]
    have hRHS : dataStr (p :: t) = '{' :: (joinL (jobjL (p :: t)) ++ ['}']) := rfl
    rw [hLHS, hRHS]
    cases hL : hasSub w ('{' :: (joinL (jobjL (p :: t))
        ++ ',' :: ' ' :: (jitemL (K, v) ++ ['}']))) with
    | true =>
      have h2 := hasSub_cons_elim w _ '{' hb1 hw hL
      rcases hasSub_split w (joinL (jobjL (p :: t))) _ ',' hcm h2 with h3 | h3
      · have hmid : hasSub w ('{' :: (joinL (jobjL (p :: t)) ++ ['}'])) = true :=
          hasSub_of_mid w ['{'] (joinL (jobjL (p :: t))) ['}'] h3
        rw [hmid]
      · exfalso
        have h4 := hasSub_cons_elim w _ ' ' hsp hw h3
        have h5 := hasSub_last_elim w _ '}' hb2 hw h4
        rw [hM] at h5
        exact Bool.noConfusion h5
    | false =>
      cases hR : hasSub w ('{' :: (joinL (jobjL (p :: t)) ++ ['}'])) with
      | false => rfl
      | true =>
        exfalso
        have h2 := hasSub_cons_elim w _ '{' hb1 hw hR
        have h3 := hasSub_last_elim w _ '}' hb2 hw h2
        have hmid : hasSub w ('{' :: (joinL (jobjL (p :: t))
            ++ ',' :: ' ' :: (jitemL (K, v) ++ ['}']))) = true :=
          hasSub_of_mid w ['{'] (joinL (jobjL (p :: t)))
            (',' :: ' ' :: (jitemL (K, v) ++ ['}'])) h3
        rw [hL] at hmid
        exact Bool.noConfusion hmid

theorem check_required_fields_append (d : Dict) (v : JVal) :
    check_required_fields (d ++ [("_verification", v)]) = check_required_fields d := by
  unfold check_required_fields
  rw [hasKey_append_ne d "_verification" "category" v (by decide),
    hasKey_append_ne d "_verification" "title" v (by decide),
    dgetD_append_ne d "_verification" "category" v (JVal.str "") (by decide),
    dget_append_ne d "_verification" "doc_number" v (by decide),
    dget_append_ne d "_verification" "source_url" v (by decide)]
  have hf : (["name", "region", "category"].filter
        (fun f => !truthyO (dget (d ++ [("_verification", v)]) f)))
      = ["name", "region", "category"].filter (fun f => !truthyO (dget d f)) := by
    apply List.filter_congr
    intro x hx
    simp only [List.mem_cons, List.not_mem_nil, or_false] at hx
    rcases hx with rfl | rfl | rfl
    · rw [dget_append_ne d "_verification" "name" v (by decide)]
    · rw [dget_append_ne d "_verification" "region" v (by decide)]
    · rw [dget_append_ne d "_verification" "category" v (by decide)]
  rw [hf]

theorem check_sources_append (d : Dict) (v : JVal) :
    check_sources (d ++ [("_verification", v)]) = check_sources d := by
  unfold check_sources
  rw [dget_append_ne d "_verification" "source_url" v (by decide),
    dget_append_ne d "_verification" "sources" v (by decide),
    dget_append_ne d "_verification" "type" v (by decide),
    dget_append_ne d "_verification" "verified" v (by decide),
    dgetD_append_ne d "_verification" "source_url" v (JVal.str "") (by decide)]

theorem check_hallucination_append (d : Dict) (v : JVal)
    (hds : ∀ w : String, w ∈ vagueWords ∨ w = "来源" ∨ w = "source" →
      hasSub w.data (dataStr (d ++ [("_verification", v)]))
        = hasSub w.data (dataStr d)) :
    check_hallucination (d ++ [("_verification", v)]) = check_hallucination d := by
  unfold check_hallucination
  have hname : nameChars (d ++ [("_verification", v)]) = nameChars d := by
    unfold nameChars
    rw [dgetD_append_ne d "_verification" "title" v (JVal.str "") (by decide),
      dgetD_append_ne d "_verification" "name" v
        (dgetD d "title" (JVal.str "")) (by decide)]
  have hvw : vagueWarns (dataStr (d ++ [("_verification", v)]))
      = vagueWarns (dataStr d) := by
    unfold vagueWarns
    congr 1
    apply List.filter_congr
    intro x hx
    exact hds x (Or.inl hx)
  have hkw : kpiWarns (d ++ [("_verification", v)]) (dataStr (d ++ [("_verification", v)]))
      = kpiWarns d (dataStr d) := by
    unfold kpiWarns
    rw [dget_append_ne d "_verification" "kpi" v (by decide),
      hds "来源" (Or.inr (Or.inl rfl)), hds "source" (Or.inr (Or.inr rfl))]
  rw [hname, hvw, hkw]

theorem verify_data_append_meta (d : Dict) (v : JVal)
    (hds : ∀ w : String, w ∈ vagueWords ∨ w = "来源" ∨ w = "source" →
      hasSub w.data (dataStr (d ++ [("_verification", v)]))
        = hasSub w.data (dataStr d)) :
    verify_data (d ++ [("_verification", v)]) = verify_data d := by
  unfold verify_data
  rw [check_hallucination_append d v hds, check_required_fields_append d v,
    check_sources_append d v,
    hasKey_append_ne d "_verification" "name" v (by decide),
    hasKey_append_ne d "_verification" "title" v (by decide)]

theorem dataStr_meta_invariant (d : Dict) (lvl ts : String)
    (hlvl : lvl = "A" ∨ lvl = "CONDITIONAL" ∨ lvl = "REJECTED")
    (hts : isoOnly ts = true) :
    ∀ w : String, w ∈ vagueWords ∨ w = "来源" ∨ w = "source" →
      hasSub w.data (dataStr (d ++ [("_verification", verifiedMeta lvl ts)]))
        = hasSub w.data (dataStr d) := by
  intro w hw
  rcases hw with hw | rfl | rfl
  all_goals try simp only [vagueWords, List.mem_cons, List.not_mem_nil, or_false] at hw
  · rcases hw with rfl | rfl | rfl | rfl | rfl | rfl
    all_goals
      apply hasSub_dataStr_append <;>
        first
          | decide
          | (apply notSub_metaItem <;>
              first
                | decide
                | (rcases hlvl with rfl | rfl | rfl <;> decide)
                | (exact notSub_iso _ ts hts (by decide)))
  all_goals
    apply hasSub_dataStr_append <;>
      first
        | decide
        | (apply notSub_metaItem <;>
            first
              | decide
              | (rcases hlvl with rfl | rfl | rfl <;> decide)
              | (exact notSub_iso _ ts hts (by decide)))

/-- The level/passed computation of `verify_data`, case-analysed over the
emptiness of the two merged lists. -/
theorem level_passed_cases (e w : List String) :
    ((if !e.isEmpty then "REJECTED" else if !w.isEmpty then "CONDITIONAL" else "A") = "A"
      ↔ e = [] ∧ w = [])
    ∧ ((if !e.isEmpty then "REJECTED" else if !w.isEmpty then "CONDITIONAL" else "A")
        = "CONDITIONAL" ↔ e = [] ∧ w ≠ [])
    ∧ ((if !e.isEmpty then "REJECTED" else if !w.isEmpty then "CONDITIONAL" else "A")
        = "REJECTED" ↔ e ≠ [])
    ∧ (e.isEmpty = true ↔ e = []) := by
  cases e <;> cases w <;> simp

/-! ## Claim theorems -/

/-- C1: for every record verified by the middleware, the verdict's level
is `A` iff `errors` and `warnings` are both empty, `CONDITIONAL` iff
`errors` is empty and `warnings` is not, `REJECTED` iff `errors` is
non-empty, and `passed` is true iff `errors` is empty (warnings never
block passing). -/
theorem verify_level_spec (d : Dict) :
    ((verify_data d).level = "A"
      ↔ (verify_data d).errors = [] ∧ (verify_data d).warnings = [])
    ∧ ((verify_data d).level = "CONDITIONAL"
      ↔ (verify_data d).errors = [] ∧ (verify_data d).warnings ≠ [])
    ∧ ((verify_data d).level = "REJECTED" ↔ (verify_data d).errors ≠ [])
    ∧ ((verify_data d).passed = true ↔ (verify_data d).errors = []) :=
  level_passed_cases (verify_data d).errors (verify_data d).warnings

/-- C4: `validate_policy_cross` returns `is_valid` true exactly when
`has_doc_number` or `is_gov_source` holds (the other two checks never
affect validity), and a policy with neither a doc number nor a source
URL is always invalid regardless of its title. -/
theorem policy_valid_iff (d : Dict) :
    ((validate_policy_cross d).is_valid
      = ((validate_policy_cross d).has_doc_number
          || (validate_policy_cross d).is_gov_source))
    ∧ ((validate_policy_cross d).is_valid = true ↔
        (truthyV (dgetD d "doc_number" (JVal.str "")) = true
         ∨ (truthyV (dgetD d "source_url" (JVal.str "")) = true
            ∧ strIn "gov.cn" (lowerS (getStr (dgetD d "source_url" (JVal.str ""))))
              = true)))
    ∧ (truthyV (dgetD d "doc_number" (JVal.str "")) = false →
        truthyV (dgetD d "source_url" (JVal.str "")) = false →
        (validate_policy_cross d).is_valid = false) := by
  refine ⟨rfl, ?_, ?_⟩
  · show (validate_policy_cross d).is_valid = true ↔ _
    by_cases h : truthyV (dgetD d "source_url" (JVal.str "")) = true
    · simp [validate_policy_cross, h]
    · simp [validate_policy_cross, h]
  · intro h1 h2
    simp [validate_policy_cross, h1, h2]

/-- Witness for C4 at a concrete rejected policy. -/
theorem policy_valid_iff_witness :
    truthyV (dgetD [("title", JVal.str "某政策")] "doc_number" (JVal.str "")) = false
    ∧ truthyV (dgetD [("title", JVal.str "某政策")] "source_url" (JVal.str "")) = false
    ∧ (validate_policy_cross [("title", JVal.str "某政策")]).is_valid = false :=
  ⟨by decide, by decide,
    (policy_valid_iff [("title", JVal.str "某政策")]).2.2 (by decide) (by decide)⟩

/-- The verdict structure of `check_source_independence` (its value on
the non-raising domain): it reports the input length, collects the
distinct hosts, and is independent exactly when there are at least two
distinct hosts; fewer than two distinct hosts (in particular the empty
source list) never count as independent. -/
theorem independence_spec (sources : List Dict) :
    (check_source_independence sources).total_sources = sources.length
    ∧ ((check_source_independence sources).is_independent = true ↔
        2 ≤ (domainsOf sources).toFinset.card)
    ∧ (check_source_independence sources).unique_domains = (domainsOf sources).dedup
    ∧ ((domainsOf sources).toFinset.card < 2 →
        (check_source_independence sources).is_independent = false)
    ∧ (sources = [] → (check_source_independence sources).is_independent = false) := by
  have hcard : (domainsOf sources).toFinset.card = (domainsOf sources).dedup.length :=
    List.card_toFinset _
  refine ⟨rfl, ?_, rfl, ?_, ?_⟩
  · rw [hcard]
    simp [check_source_independence]
  · rw [hcard]
    intro h
    simp only [check_source_independence, decide_eq_false_iff_not]
    omega
  · rintro rfl
    rfl

/-- C10: when a record has neither a `name` nor a `title` key,
`verify_data` skips the required-field check entirely, so a record with
a `category` key but missing `name` and `region` produces no
missing-field errors through the middleware path, although
`_check_required_fields` applied directly yields one error per missing
field. -/
theorem skip_required_without_name_title :
    (∀ d : Dict, hasKey d "name" = false → hasKey d "title" = false →
      (verify_data d).errors
        = (check_hallucination d).errors ++ (check_sources d).errors
      ∧ (verify_data d).warnings
        = (check_hallucination d).warnings ++ (check_sources d).warnings)
    ∧ (verify_data [("category", JVal.str "文创IP")]).errors = []
    ∧ (check_required_fields [("category", JVal.str "文创IP")]).errors
      = ["缺少必填字段: name", "缺少必填字段: region"] := by
  refine ⟨?_, by decide, by decide⟩
  intro d h1 h2
  have hcond : (hasKey d "name" || hasKey d "title") = false := by
    rw [h1, h2]
    rfl
  constructor
  · show (verify_data d).errors = _
    simp [verify_data, hcond]
  · show (verify_data d).warnings = _
    simp [verify_data, hcond]

/-- The four-check conjunction of `validate_brand_cross` (its value on
the non-raising domain): valid exactly when there are at least two
sources, at least two distinct source hosts, some source of credibility
tier A or B, and a name containing none of the forbidden template
phrases. -/
theorem brand_valid_iff (brand_name : String) (sources : List Dict) :
    (validate_brand_cross brand_name sources).is_valid = true ↔
      (2 ≤ sources.length
       ∧ 2 ≤ (domainsOf sources).toFinset.card
       ∧ (∃ s ∈ sources,
            check_source_credibility (getStr (dgetD s "url" (JVal.str ""))) = "A"
            ∨ check_source_credibility (getStr (dgetD s "url" (JVal.str ""))) = "B")
       ∧ ∀ p ∈ brandForbidden, strIn p brand_name = false) := by
  rw [show (domainsOf sources).toFinset.card = (domainsOf sources).dedup.length from
    List.card_toFinset _]
  show (decide (2 ≤ sources.length) && decide (2 ≤ (domainsOf sources).dedup.length)
      && (sources.map
            (fun s => check_source_credibility (getStr (dgetD s "url" (JVal.str ""))))).any
            (fun s => s = "A" || s = "B")
      && !(brandForbidden.any (fun p => strIn p brand_name))) = true ↔ _
  simp only [Bool.and_eq_true, decide_eq_true_eq, List.any_eq_true, List.mem_map,
    Bool.or_eq_true, decide_eq_true_eq, Bool.not_eq_true', List.any_eq_false,
    Bool.and_assoc, Bool.not_eq_true]
  constructor
  · rintro ⟨h1, h2, ⟨x, ⟨s, hs, rfl⟩, hx⟩, h4⟩
    exact ⟨h1, h2, ⟨s, hs, hx⟩, h4⟩
  · rintro ⟨h1, h2, ⟨s, hs, hx⟩, h4⟩
    exact ⟨h1, h2, ⟨_, ⟨s, hs, rfl⟩, hx⟩, h4⟩

/-- The tier selection of `check_source_credibility` (the value on the
non-raising domain): exactly one of the four tiers, testing the
lowercased host against the tier domain lists in the order A, B, C with
substring containment, and `D` when no tier matches, in particular
whenever the host is empty. -/
theorem credibility_tier_spec (url : String) :
    (check_source_credibility url = "A" ∨ check_source_credibility url = "B"
      ∨ check_source_credibility url = "C" ∨ check_source_credibility url = "D")
    ∧ (check_source_credibility url = "A" ↔
        ∃ p ∈ tierA, strIn p (lowerS (netlocS url)) = true)
    ∧ (check_source_credibility url = "B" ↔
        ((∀ p ∈ tierA, strIn p (lowerS (netlocS url)) = false)
         ∧ ∃ p ∈ tierB, strIn p (lowerS (netlocS url)) = true))
    ∧ (check_source_credibility url = "C" ↔
        ((∀ p ∈ tierA, strIn p (lowerS (netlocS url)) = false)
         ∧ (∀ p ∈ tierB, strIn p (lowerS (netlocS url)) = false)
         ∧ ∃ p ∈ tierC, strIn p (lowerS (netlocS url)) = true))
    ∧ (check_source_credibility url = "D" ↔
        ((∀ p ∈ tierA, strIn p (lowerS (netlocS url)) = false)
         ∧ (∀ p ∈ tierB, strIn p (lowerS (netlocS url)) = false)
         ∧ ∀ p ∈ tierC, strIn p (lowerS (netlocS url)) = false))
    ∧ (netlocS url = "" → check_source_credibility url = "D") := by
  have bridge : ∀ l : List String,
      (∃ p ∈ l, strIn p (lowerS (netlocS url)) = true) ↔
        l.any (fun p => hasSub p.data (lowerL (netlocL url.data))) = true := by
    intro l
    rw [List.any_eq_true]
    exact Iff.rfl
  have nbridge : ∀ l : List String,
      (∀ p ∈ l, strIn p (lowerS (netlocS url)) = false) ↔
        ¬ l.any (fun p => hasSub p.data (lowerL (netlocL url.data))) = true := by
    intro l
    rw [List.any_eq_true]
    constructor
    · rintro h ⟨p, hp, hq⟩
      have hq' : strIn p (lowerS (netlocS url)) = true := hq
      rw [h p hp] at hq'
      cases hq'
    · intro h p hp
      cases hq : strIn p (lowerS (netlocS url)) with
      | false => rfl
      | true => exact absurd ⟨p, hp, hq⟩ h
  have hD : netlocS url = "" → check_source_credibility url = "D" := by
    intro hloc
    have hl : netlocL url.data = [] := congrArg String.data hloc
    simp only [check_source_credibility, hl]
    decide
  rw [bridge, bridge, bridge, nbridge, nbridge, nbridge]
  by_cases hA : tierA.any (fun p => hasSub p.data (lowerL (netlocL url.data))) = true
  all_goals by_cases hB : tierB.any (fun p => hasSub p.data (lowerL (netlocL url.data))) = true
  all_goals by_cases hC : tierC.any (fun p => hasSub p.data (lowerL (netlocL url.data))) = true
  all_goals refine ⟨?_, ?_, ?_, ?_, ?_, hD⟩
  all_goals simp [check_source_credibility, hA, hB, hC]

/-- C6: the claim (and the spec's totality contract) says
`check_source_credibility` never raises and returns one of the four
tiers for every string, but on `http://[abc` the embedded code raises
`ValueError("Invalid IPv6 URL")` — `urlsplit`'s mismatched-bracket
authority check — instead of returning a tier; on every URL whose
authority has balanced brackets it does return, and yields exactly one
of `A`, `B`, `C`, `D`. -/
theorem credibility_raise_and_tiers :
    check_source_credibilityE "http://[abc" = .error "Invalid IPv6 URL"
    ∧ (∀ url : String, invalidIpv6 url.data = false →
        check_source_credibilityE url = .ok (check_source_credibility url)
        ∧ (check_source_credibility url = "A" ∨ check_source_credibility url = "B"
           ∨ check_source_credibility url = "C" ∨ check_source_credibility url = "D")) :=
  ⟨rfl, fun url h => ⟨check_source_credibilityE_ok url h, (credibility_tier_spec url).1⟩⟩

/-- Witness for C6's theorem at a bracket-free URL. -/
theorem credibility_raise_witness :
    invalidIpv6 "https://gugong.tmall.com".data = false
    ∧ (check_source_credibilityE "https://gugong.tmall.com"
        = .ok (check_source_credibility "https://gugong.tmall.com")
      ∧ (check_source_credibility "https://gugong.tmall.com" = "A"
         ∨ check_source_credibility "https://gugong.tmall.com" = "B"
         ∨ check_source_credibility "https://gugong.tmall.com" = "C"
         ∨ check_source_credibility "https://gugong.tmall.com" = "D")) :=
  ⟨by decide, credibility_raise_and_tiers.2 "https://gugong.tmall.com" (by decide)⟩

/-- C7: the claim says `check_source_independence` extracts an empty
host from every unparseable URL and always returns its verdict, but on a
source whose URL has a mismatched-bracket authority the embedded code
raises `ValueError("Invalid IPv6 URL")` instead of returning; on every
source list whose URLs are bracket-balanced it returns the claimed
verdict: `total_sources` is the input length and independence holds
exactly when there are at least two distinct hosts, never with fewer. -/
theorem independence_raise_and_spec :
    check_source_independenceE [[("url", JVal.str "http://[abc")]]
      = .error "Invalid IPv6 URL"
    ∧ (∀ sources : List Dict, allValidUrls sources = true →
        check_source_independenceE sources = .ok (check_source_independence sources)
        ∧ (check_source_independence sources).total_sources = sources.length
        ∧ ((check_source_independence sources).is_independent = true ↔
            2 ≤ (domainsOf sources).toFinset.card)
        ∧ ((domainsOf sources).toFinset.card < 2 →
            (check_source_independence sources).is_independent = false)) :=
  ⟨rfl, fun sources h =>
    ⟨check_source_independenceE_ok sources h, (independence_spec sources).1,
      (independence_spec sources).2.1, (independence_spec sources).2.2.2.1⟩⟩

/-- Witness for C7's theorem at two bracket-free single-URL sources. -/
theorem independence_raise_witness :
    allValidUrls [[("url", JVal.str "https://gugong.tmall.com")],
        [("url", JVal.str "https://www.dpm.org.cn")]] = true
    ∧ (check_source_independenceE [[("url", JVal.str "https://gugong.tmall.com")],
          [("url", JVal.str "https://www.dpm.org.cn")]]
        = .ok (check_source_independence [[("url", JVal.str "https://gugong.tmall.com")],
            [("url", JVal.str "https://www.dpm.org.cn")]])
      ∧ (check_source_independence [[("url", JVal.str "https://gugong.tmall.com")],
          [("url", JVal.str "https://www.dpm.org.cn")]]).total_sources
          = [[("url", JVal.str "https://gugong.tmall.com")],
             [("url", JVal.str "https://www.dpm.org.cn")]].length
      ∧ ((check_source_independence [[("url", JVal.str "https://gugong.tmall.com")],
            [("url", JVal.str "https://www.dpm.org.cn")]]).is_independent = true ↔
          2 ≤ (domainsOf [[("url", JVal.str "https://gugong.tmall.com")],
              [("url", JVal.str "https://www.dpm.org.cn")]]).toFinset.card)
      ∧ ((domainsOf [[("url", JVal.str "https://gugong.tmall.com")],
            [("url", JVal.str "https://www.dpm.org.cn")]]).toFinset.card < 2 →
          (check_source_independence [[("url", JVal.str "https://gugong.tmall.com")],
              [("url", JVal.str "https://www.dpm.org.cn")]]).is_independent = false)) :=
  ⟨by decide,
    independence_raise_and_spec.2 [[("url", JVal.str "https://gugong.tmall.com")],
      [("url", JVal.str "https://www.dpm.org.cn")]] (by decide)⟩

/-- C3: the claim says `validate_brand_cross` always returns the
conjunction of its four checks, but on a source whose URL has a
mismatched-bracket authority the embedded code raises
`ValueError("Invalid IPv6 URL")` inside its independence/credibility
calls and returns no verdict; on every source list whose URLs are
bracket-balanced it returns, and is valid exactly when all four checks
hold — at least two sources, at least two distinct hosts, some tier-A/B
source, and no forbidden template phrase in the name. -/
theorem brand_raise_and_valid_iff :
    validate_brand_crossE "故宫淘宝" [[("url", JVal.str "http://[abc")]]
      = .error "Invalid IPv6 URL"
    ∧ (∀ (brand_name : String) (sources : List Dict), allValidUrls sources = true →
        validate_brand_crossE brand_name sources
          = .ok (validate_brand_cross brand_name sources)
        ∧ ((validate_brand_cross brand_name sources).is_valid = true ↔
            (2 ≤ sources.length
             ∧ 2 ≤ (domainsOf sources).toFinset.card
             ∧ (∃ s ∈ sources,
                  check_source_credibility (getStr (dgetD s "url" (JVal.str ""))) = "A"
                  ∨ check_source_credibility (getStr (dgetD s "url" (JVal.str ""))) = "B")
             ∧ ∀ p ∈ brandForbidden, strIn p brand_name = false))) :=
  ⟨rfl, fun brand_name sources h =>
    ⟨validate_brand_crossE_ok brand_name sources h, brand_valid_iff brand_name sources⟩⟩

/-- Witness for C3's theorem at a concrete two-source brand. -/
theorem brand_raise_witness :
    allValidUrls [[("url", JVal.str "https://gugong.tmall.com")],
        [("url", JVal.str "https://www.dpm.org.cn")]] = true
    ∧ (validate_brand_crossE "故宫淘宝" [[("url", JVal.str "https://gugong.tmall.com")],
          [("url", JVal.str "https://www.dpm.org.cn")]]
        = .ok (validate_brand_cross "故宫淘宝"
            [[("url", JVal.str "https://gugong.tmall.com")],
             [("url", JVal.str "https://www.dpm.org.cn")]])
      ∧ ((validate_brand_cross "故宫淘宝" [[("url", JVal.str "https://gugong.tmall.com")],
            [("url", JVal.str "https://www.dpm.org.cn")]]).is_valid = true ↔
          (2 ≤ [[("url", JVal.str "https://gugong.tmall.com")],
              [("url", JVal.str "https://www.dpm.org.cn")]].length
           ∧ 2 ≤ (domainsOf [[("url", JVal.str "https://gugong.tmall.com")],
               [("url", JVal.str "https://www.dpm.org.cn")]]).toFinset.card
           ∧ (∃ s ∈ [[("url", JVal.str "https://gugong.tmall.com")],
                 [("url", JVal.str "https://www.dpm.org.cn")]],
                check_source_credibility (getStr (dgetD s "url" (JVal.str ""))) = "A"
                ∨ check_source_credibility (getStr (dgetD s "url" (JVal.str ""))) = "B")
           ∧ ∀ p ∈ brandForbidden, strIn p "故宫淘宝" = false))) :=
  ⟨by decide,
    brand_raise_and_valid_iff.2 "故宫淘宝" [[("url", JVal.str "https://gugong.tmall.com")],
      [("url", JVal.str "https://www.dpm.org.cn")]] (by decide)⟩

/-- C2 counterexample: on a source URL whose host is `example.com` but
whose path contains `gov.cn`, the code sets `is_gov_source` to true even
though the host does not match the government domain pattern, refuting
the claim that `is_gov_source` is a function of the host. -/
theorem policy_gov_source_path_cex :
    (validate_policy_cross
        [("source_url", JVal.str "http://example.com/gov.cn")]).is_gov_source = true
    ∧ strIn "gov.cn" (lowerS (netlocS "http://example.com/gov.cn")) = false
    ∧ netlocS "http://example.com/gov.cn" = "example.com" :=
  ⟨by decide, by decide, by decide⟩

/-- C2 amended: `is_gov_source` is true exactly when the source URL
value is truthy and the lowercased full URL contains `gov.cn`; this
holds in particular whenever the host matches the government pattern,
but also when `gov.cn` only appears elsewhere in the URL, and an empty
source URL yields false. -/
theorem policy_gov_source_spec (d : Dict) :
    ((validate_policy_cross d).is_gov_source = true ↔
      (truthyV (dgetD d "source_url" (JVal.str "")) = true
       ∧ strIn "gov.cn" (lowerS (getStr (dgetD d "source_url" (JVal.str ""))))
         = true))
    ∧ (getStr (dgetD d "source_url" (JVal.str "")) = "" →
        (validate_policy_cross d).is_gov_source = false)
    ∧ (truthyV (dgetD d "source_url" (JVal.str "")) = true →
        strIn "gov.cn" (lowerS (netlocS (getStr (dgetD d "source_url" (JVal.str "")))))
          = true →
        (validate_policy_cross d).is_gov_source = true) := by
  refine ⟨?_, ?_, ?_⟩
  · by_cases h : truthyV (dgetD d "source_url" (JVal.str "")) = true <;>
      simp [validate_policy_cross, h]
  · intro h
    by_cases ht : truthyV (dgetD d "source_url" (JVal.str "")) = true
    · simp only [validate_policy_cross, ht, if_true, h]
      decide
    · simp [validate_policy_cross, ht]
  · intro ht hsub
    have hfull := hasSub_lower_netloc "gov.cn".data
      (getStr (dgetD d "source_url" (JVal.str ""))).data hsub
    simp only [validate_policy_cross, ht, if_true]
    exact hfull

/-- Witness for C2's amended theorem at a genuine government URL. -/
theorem policy_gov_source_spec_witness :
    truthyV (dgetD [("source_url", JVal.str "https://www.GOV.cn/zhengce")]
        "source_url" (JVal.str "")) = true
    ∧ strIn "gov.cn"
        (lowerS (netlocS (getStr (dgetD [("source_url", JVal.str "https://www.GOV.cn/zhengce")]
          "source_url" (JVal.str ""))))) = true
    ∧ (validate_policy_cross
        [("source_url", JVal.str "https://www.GOV.cn/zhengce")]).is_gov_source = true :=
  ⟨by decide, by decide,
    (policy_gov_source_spec [("source_url", JVal.str "https://www.GOV.cn/zhengce")]).2.2
      (by decide) (by decide)⟩

/-- C5: in strict mode a dict result whose verification has errors makes
the guarded call fail with the full error list and a preview of the
record truncated to at most 200 characters (the caller receives no
record), while in permissive mode no call ever fails and a rejected
record is returned tagged with `PENDING` status, the errors and the
timestamp. -/
theorem guard_strict_permissive_spec (d : Dict) (ts : String) :
    ((verify_data d).errors ≠ [] →
      validate_required true ts (.obj d)
        = .error { errors := (verify_data d).errors,
                   preview := String.mk ((jdumpL (.obj d)).take 200) }
      ∧ (String.mk ((jdumpL (.obj d)).take 200)).length ≤ 200)
    ∧ (∀ r : JVal, isOkE (validate_required false ts r) = true)
    ∧ ((verify_data d).errors ≠ [] →
        validate_required false ts (.obj d)
          = .ok (.obj (dset d "_verification"
              (pendingMeta (verify_data d).errors ts)))) := by
  have hpe : ∀ d0 : Dict, (verify_data d0).errors ≠ [] → (verify_data d0).passed = false := by
    intro d0 he
    show (verify_data d0).errors.isEmpty = false
    rcases h : (verify_data d0).errors with _ | ⟨x, xs⟩
    · exact absurd h he
    · rfl
  refine ⟨?_, ?_, ?_⟩
  · intro he
    have hp := hpe d he
    constructor
    · simp [validate_required, hp]
    · show (String.mk ((jdumpL (.obj d)).take 200)).length ≤ 200
      have : (String.mk ((jdumpL (.obj d)).take 200)).length
          = ((jdumpL (.obj d)).take 200).length := rfl
      rw [this, List.length_take]
      omega
  · intro r
    rcases r with s | n | b | _ | l | dd
    · rfl
    · rfl
    · rfl
    · rfl
    · rfl
    · by_cases hp : (!(verify_data dd).passed) = true
      · simp [validate_required, hp, isOkE]
      · simp [validate_required, hp, isOkE]
  · intro he
    have hp := hpe d he
    simp [validate_required, hp]

/-- Witness for C5 at a concrete rejected record. -/
theorem guard_strict_permissive_witness :
    (verify_data [("name", JVal.str "某品牌")]).errors ≠ []
    ∧ (validate_required true "2026-01-01T00:00:00"
          (.obj [("name", JVal.str "某品牌")])
        = .error { errors := (verify_data [("name", JVal.str "某品牌")]).errors,
                   preview := String.mk
                     ((jdumpL (.obj [("name", JVal.str "某品牌")])).take 200) }
      ∧ (String.mk ((jdumpL (.obj [("name", JVal.str "某品牌")])).take 200)).length
          ≤ 200) :=
  ⟨by decide,
    (guard_strict_permissive_spec [("name", JVal.str "某品牌")] "2026-01-01T00:00:00").1
      (by decide)⟩

/-- C8 counterexample: a record that already carries a `_verification`
key loses its original value there — the guarded call stores the verdict
in-band under that key of the record itself, so not every key of the
input record keeps its original value. -/
theorem verify_overwrites_metadata_cex :
    validate_required true "2026-01-01T00:00:00"
        (.obj [("_verification", JVal.str "old"), ("verified", JVal.bool true)])
      = .ok (.obj [("_verification", verifiedMeta "A" "2026-01-01T00:00:00"),
                   ("verified", JVal.bool true)])
    ∧ dget [("_verification", JVal.str "old"), ("verified", JVal.bool true)]
        "_verification" = some (JVal.str "old")
    ∧ dget [("_verification", verifiedMeta "A" "2026-01-01T00:00:00"),
            ("verified", JVal.bool true)] "_verification"
        ≠ some (JVal.str "old") :=
  ⟨rfl, rfl, fun h => JVal.noConfusion (Option.some.inj h)⟩

/-- C8 amended: the guarded operation never changes the value of any key
other than the reserved `_verification` key; the verdict is stored under
the record's own `_verification` key (in-band metadata), overwriting any
pre-existing value of that key. -/
theorem verify_preserves_other_keys (d d' : Dict) (strict : Bool) (ts k : String)
    (hres : validate_required strict ts (.obj d) = .ok (.obj d'))
    (hk : k ≠ "_verification") :
    dget d' k = dget d k ∧ ∃ m, dget d' "_verification" = some m := by
  have hmain : ∃ m, d' = dset d "_verification" m := by
    by_cases hp : (verify_data d).passed = true
    · have hcomp : validate_required strict ts (.obj d)
          = .ok (.obj (dset d "_verification" (verifiedMeta (verify_data d).level ts))) := by
        simp [validate_required, hp]
      rw [hcomp] at hres
      injection hres with h1
      injection h1 with h2
      exact ⟨_, h2.symm⟩
    · have hp' : (verify_data d).passed = false := by
        cases h : (verify_data d).passed
        · rfl
        · exact absurd h hp
      cases strict with
      | true =>
        have hcomp : validate_required true ts (.obj d)
            = .error { errors := (verify_data d).errors,
                       preview := String.mk ((jdumpL (.obj d)).take 200) } := by
          simp [validate_required, hp']
        rw [hcomp] at hres
        exact Except.noConfusion hres
      | false =>
        have hcomp : validate_required false ts (.obj d)
            = .ok (.obj (dset d "_verification" (pendingMeta (verify_data d).errors ts))) := by
          simp [validate_required, hp']
        rw [hcomp] at hres
        injection hres with h1
        injection h1 with h2
        exact ⟨_, h2.symm⟩
  rcases hmain with ⟨m, rfl⟩
  exact ⟨dget_dset_ne d _ k m hk, ⟨m, dget_dset_self d _ m⟩⟩

/-- Witness for C8's amended theorem at a concrete accepted record. -/
theorem verify_preserves_other_keys_witness :
    validate_required true "2026-01-01T00:00:00"
        (.obj [("name", JVal.str "泡泡玛特"), ("verified", JVal.bool true)])
      = .ok (.obj ([("name", JVal.str "泡泡玛特"), ("verified", JVal.bool true)]
          ++ [("_verification", verifiedMeta "A" "2026-01-01T00:00:00")]))
    ∧ ("name" : String) ≠ "_verification"
    ∧ (dget ([("name", JVal.str "泡泡玛特"), ("verified", JVal.bool true)]
          ++ [("_verification", verifiedMeta "A" "2026-01-01T00:00:00")]) "name"
        = dget [("name", JVal.str "泡泡玛特"), ("verified", JVal.bool true)] "name"
      ∧ ∃ m, dget ([("name", JVal.str "泡泡玛特"), ("verified", JVal.bool true)]
          ++ [("_verification", verifiedMeta "A" "2026-01-01T00:00:00")]) "_verification"
          = some m) :=
  ⟨rfl, by decide,
    verify_preserves_other_keys _ _ true "2026-01-01T00:00:00" "name" rfl (by decide)⟩

/-- C9: verification is idempotent on accepted records — re-running
`verify_data` on a record that passed verification and carries its
attached `_verification` metadata (`VERIFIED` status, level, ISO
timestamp) while all domain fields are untouched yields a verdict
identical to the original one. -/
theorem verify_idempotent_on_accepted (d : Dict) (ts : String)
    (hnk : hasKey d "_verification" = false)
    (hts : isoOnly ts = true)
    (_hpass : (verify_data d).passed = true) :
    verify_data (dset d "_verification" (verifiedMeta (verify_data d).level ts))
      = verify_data d := by
  rw [dset_not_hasKey d _ _ hnk]
  exact verify_data_append_meta d _
    (dataStr_meta_invariant d _ ts (verify_level_values d) hts)

/-- Witness for C9 at a concrete accepted record. -/
theorem verify_idempotent_witness :
    hasKey [("name", JVal.str "泡泡玛特"), ("verified", JVal.bool true)]
        "_verification" = false
    ∧ isoOnly "2026-01-02T03:04:05.000006" = true
    ∧ (verify_data [("name", JVal.str "泡泡玛特"), ("verified", JVal.bool true)]).passed
        = true
    ∧ verify_data (dset [("name", JVal.str "泡泡玛特"), ("verified", JVal.bool true)]
        "_verification"
        (verifiedMeta
          (verify_data [("name", JVal.str "泡泡玛特"), ("verified", JVal.bool true)]).level
          "2026-01-02T03:04:05.000006"))
      = verify_data [("name", JVal.str "泡泡玛特"), ("verified", JVal.bool true)] :=
  ⟨by decide, by decide, by decide,
    verify_idempotent_on_accepted [("name", JVal.str "泡泡玛特"), ("verified", JVal.bool true)]
      "2026-01-02T03:04:05.000006" (by decide) (by decide) (by decide)⟩

/-- Witness for C10 at the concrete category-only record. -/
theorem skip_required_witness :
    hasKey [("category", JVal.str "文创IP")] "name" = false
    ∧ hasKey [("category", JVal.str "文创IP")] "title" = false
    ∧ ((verify_data [("category", JVal.str "文创IP")]).errors
        = (check_hallucination [("category", JVal.str "文创IP")]).errors
          ++ (check_sources [("category", JVal.str "文创IP")]).errors
      ∧ (verify_data [("category", JVal.str "文创IP")]).warnings
        = (check_hallucination [("category", JVal.str "文创IP")]).warnings
          ++ (check_sources [("category", JVal.str "文创IP")]).warnings) :=
  ⟨by decide, by decide,
    skip_required_without_name_title.1 _ (by decide) (by decide)⟩
